import Mathlib

/-
Verification of the natural-language specification of src/h5printer.py
(an HDF5 structure explorer / pretty printer) against a shallow Lean
embedding of its code.

Modelling conventions:
* Python strings are Lean `String`s (both are sequences of unicode code
  points; Python `len` = `String.length`).
* numpy arrays are modelled as a shape (`List Nat`), a dtype name
  (`String`) and a flat element buffer in storage order (`List Int`;
  element rendering `str(e)` is decimal, matching `toString : Int → String`).
* `bytes` values are `List Nat` of byte values.
* A dataset payload, materialized on demand in Python by `dataset[()]`
  (which may raise), is an `Except String Value`: `.error msg` models a
  raised exception carrying message `msg`.
* Output: every line printed by the program is an `Event`; writes to the
  console stream and writes to the optional output file are distinguished,
  and the closing of the output file is an event, so that ordering claims
  can be stated.
-/

/-! ### Small helpers for Python-level operations -/

/-- Python text slice `s[:n]`: the first `n` characters (code points). -/
def pyStrTake (s : String) (n : Nat) : String := String.mk (s.data.take n)

/-- Python slice `xs[-h:]` on a sequence: for `h = 0` this is `xs[0:]`, i.e.
the WHOLE sequence (since `-0 == 0`); for `h > 0` it is the last `h`
elements (all of `xs` when `h` exceeds the length). -/
def pyTailSlice (xs : List Int) (h : Nat) : List Int :=
  if h = 0 then xs else xs.drop (xs.length - h)

/-- Last `k` elements of a list. -/
def lastN (k : Nat) (xs : List α) : List α := xs.drop (xs.length - k)

/-- Join a list of chunks with a separator (`sep.join(...)` at the level of
character lists). -/
def joinSep (sep : List α) : List (List α) → List α
  | [] => []
  | x :: [] => x
  | x :: y :: xs => x ++ sep ++ joinSep sep (y :: xs)

/-- Split `xs` into `n` consecutive chunks of `csize` elements each. -/
def chunksN (n csize : Nat) (xs : List Int) : List (List Int) :=
  match n with
  | 0 => []
  | Nat.succ m => xs.take csize :: chunksN m csize (xs.drop csize)

/-- Boolean substring test on character lists. -/
def hasInfix (p l : List Char) : Bool := l.tails.any (fun t => p.isPrefixOf t)

/-- The characters of the elision marker used by numpy summarization. -/
def dots3 : List Char := ['.', '.', '.']

/-! ### A model of numpy `str(array)` under the default printoptions

`str(array)` (the line `return str(array)` of `_format_numpy_array`) is a
library call; we model its documented default behaviour: elements rendered
in decimal, right-justified to a common width, rows bracketed and joined
with one space, subarrays at nesting depth `d` of an array with `r`
remaining dimensions joined by `r - 1` newlines plus `d + 1` spaces, and —
crucially for the spec — summarization with the elision marker `...` when
`array.size` exceeds the default print threshold 1000 (each summarized axis
longer than `2 * edgeitems = 6` shows its first 3 and last 3 entries).
Line wrapping at the default line width is abstracted away (it only
replaces some inter-element separators and never touches element texts or
inserts `...`). -/

/-- `str(e)` for an integer array element. -/
def elemChars (z : Int) : List Char := (toString z).data

/-- Right-justify to width `w` (numpy pads elements to a common width). -/
def padChars (w : Nat) (s : List Char) : List Char :=
  List.replicate (w - s.length) ' ' ++ s

/-- Width of the widest rendered element. -/
def maxWidth (xs : List Int) : Nat :=
  xs.foldl (fun a z => max a (elemChars z).length) 0

/-- The elements numpy actually displays (used to compute the common
width): all of them, or first/last 3 per summarized axis. -/
def shownElems (summ : Bool) : List Nat → List Int → List Int
  | [], es => [es.headD 0]
  | [n], es =>
      if summ && decide (6 < n) then es.take 3 ++ lastN 3 es else es
  | n :: m :: rest, es =>
      let cs := chunksN n ((m :: rest).prod) es
      let picked := if summ && decide (6 < n) then cs.take 3 ++ lastN 3 cs else cs
      (picked.map (fun c => shownElems summ (m :: rest) c)).flatten

/-- Recursive renderer for `str(array)`: `d` is the nesting depth, `w` the
common element width, `summ` whether summarization is on. -/
def npChars (d w : Nat) (summ : Bool) : List Nat → List Int → List Char
  | [], es => padChars w (elemChars (es.headD 0))
  | [n], es =>
      let shown := if summ && decide (6 < n)
        then (es.take 3).map (fun z => padChars w (elemChars z))
              ++ dots3 :: (lastN 3 es).map (fun z => padChars w (elemChars z))
        else es.map (fun z => padChars w (elemChars z))
      '[' :: joinSep [' '] shown ++ [']']
  | n :: m :: rest, es =>
      let cs := chunksN n ((m :: rest).prod) es
      let picked := if summ && decide (6 < n)
        then (cs.take 3).map (fun c => npChars (d + 1) w summ (m :: rest) c)
              ++ dots3 :: (lastN 3 cs).map (fun c => npChars (d + 1) w summ (m :: rest) c)
        else cs.map (fun c => npChars (d + 1) w summ (m :: rest) c)
      let sep := List.replicate (m :: rest).length '\n' ++ List.replicate (d + 1) ' '
      '[' :: joinSep sep picked ++ [']']

/-- `str(array)` for an integer numpy array under default printoptions. -/
def numpyStr (shape : List Nat) (elems : List Int) : String :=
  let summ := decide (1000 < shape.prod)
  String.mk (npChars 0 (maxWidth (shownElems summ shape elems)) summ shape elems)

/-- Python tuple repr of `array.shape` / `dataset.shape`:
`()`, `(5,)`, `(2, 3)`. -/
def shapeRepr (shape : List Nat) : String :=
  match shape with
  | [] => "()"
  | n :: [] => String.mk ('(' :: (Nat.repr n).data ++ [',', ')'])
  | _ => String.mk ('(' :: joinSep [',', ' '] (shape.map (fun k => (Nat.repr k).data)) ++ [')'])

/-- `", ".join(map(str, xs))`. -/
def commaJoin (xs : List Int) : String :=
  String.mk (joinSep [',', ' '] (xs.map (fun z => elemChars z)))

/-! ### Lossy UTF-8 decoding, `data.decode("utf-8", "replace")`

Faithful to CPython's UTF-8 decoder with the `"replace"` error handler:
one U+FFFD replacement per maximal invalid subpart, decoding never fails. -/

/-- The replacement character U+FFFD. -/
def replChar : Char := Char.ofNat 65533

/-- Is `b` a UTF-8 continuation byte? -/
def isCont (b : Nat) : Bool := 0x80 ≤ b && b ≤ 0xBF

/-- Allowed first continuation byte after a 3-byte lead. -/
def cont1okE (b c : Nat) : Bool :=
  if b = 0xE0 then 0xA0 ≤ c && c ≤ 0xBF
  else if b = 0xED then 0x80 ≤ c && c ≤ 0x9F
  else isCont c

/-- Allowed first continuation byte after a 4-byte lead. -/
def cont1okF (b c : Nat) : Bool :=
  if b = 0xF0 then 0x90 ≤ c && c ≤ 0xBF
  else if b = 0xF4 then 0x80 ≤ c && c ≤ 0x8F
  else isCont c

/-- Lossy UTF-8 decode of a byte sequence to characters. -/
def utf8DecodeReplaceChars (l : List Nat) : List Char :=
  match l with
  | [] => []
  | b :: rest =>
    if b < 0x80 then Char.ofNat b :: utf8DecodeReplaceChars rest
    else if 0xC2 ≤ b && b ≤ 0xDF then
      match rest with
      | rst1@(c1 :: r2) =>
        if isCont c1 then
          Char.ofNat ((b - 0xC0) * 64 + (c1 - 0x80)) :: utf8DecodeReplaceChars r2
        else replChar :: utf8DecodeReplaceChars rst1
      | [] => [replChar]
    else if 0xE0 ≤ b && b ≤ 0xEF then
      match rest with
      | rst1@(c1 :: r2) =>
        if cont1okE b c1 then
          match r2 with
          | rst2@(c2 :: r3) =>
            if isCont c2 then
              Char.ofNat ((b - 0xE0) * 4096 + (c1 - 0x80) * 64 + (c2 - 0x80))
                :: utf8DecodeReplaceChars r3
            else replChar :: utf8DecodeReplaceChars rst2
          | [] => [replChar]
        else replChar :: utf8DecodeReplaceChars rst1
      | [] => [replChar]
    else if 0xF0 ≤ b && b ≤ 0xF4 then
      match rest with
      | rst1@(c1 :: r2) =>
        if cont1okF b c1 then
          match r2 with
          | rst2@(c2 :: r3) =>
            if isCont c2 then
              match r3 with
              | rst3@(c3 :: r4) =>
                if isCont c3 then
                  Char.ofNat ((b - 0xF0) * 262144 + (c1 - 0x80) * 4096
                      + (c2 - 0x80) * 64 + (c3 - 0x80))
                    :: utf8DecodeReplaceChars r4
                else replChar :: utf8DecodeReplaceChars rst3
              | [] => [replChar]
            else replChar :: utf8DecodeReplaceChars rst2
          | [] => [replChar]
        else replChar :: utf8DecodeReplaceChars rst1
      | [] => [replChar]
    else replChar :: utf8DecodeReplaceChars rest

/-- `data.decode("utf-8", "replace")`. -/
def utf8DecodeReplace (data : List Nat) : String :=
  String.mk (utf8DecodeReplaceChars data)

/-! ### The Value Formatter (`HDF5Explorer.format_dataset_content`) -/

/-- A value handed to the formatter: numpy array, bytes, text string, or
anything else (the `else: return str(data)` fallback carries its own
generic text form). -/
inductive Value where
  | arr (shape : List Nat) (dtype : String) (elems : List Int)
  | bytes (data : List Nat)
  | str (s : String)
  | other (text : String)

/-- The explorer's immutable per-session configuration. -/
structure HDF5Explorer where
  max_display_items : Nat
  max_string_length : Nat

/- Fixed text segments of the source's f-strings. -/

def emptyArrayMsg : String := "[] (empty array)"

def segOpen : String := "["

def segElide : String := " ... "

def segShapeMid : String := "] (shape="

def segFirstLast : String := ", first/last "

def segItems : String := " items)"

def segArrOpen : String := "<array of shape "

def segDtype : String := " dtype="

def segTooLarge : String := "> (too large to display)"

def segBytesOpen : String := "<bytes of length "

def segClose : String := ">"

def truncSuffix : String := "... [truncated]"

/-- `_format_numpy_array` (src/h5printer.py lines 25-47). -/
def HDF5Explorer._format_numpy_array (e : HDF5Explorer) (shape : List Nat)
    (dtype : String) (elems : List Int) : String :=
  if shape.prod = 0 then emptyArrayMsg
  else if shape.prod ≤ e.max_display_items then numpyStr shape elems
  else if shape.length = 1 then
    let half_items := e.max_display_items / 2
    let head := elems.take half_items
    let tail := pyTailSlice elems half_items
    segOpen ++ commaJoin head ++ segElide ++ commaJoin tail ++ segShapeMid
      ++ shapeRepr shape ++ segFirstLast ++ Nat.repr e.max_display_items ++ segItems
  else
    segArrOpen ++ shapeRepr shape ++ segDtype ++ dtype ++ segTooLarge

/-- `_format_bytes_data` (src/h5printer.py lines 49-54). -/
def HDF5Explorer._format_bytes_data (e : HDF5Explorer) (data : List Nat) : String :=
  if data.length < e.max_string_length then utf8DecodeReplace data
  else segBytesOpen ++ Nat.repr data.length ++ segClose

/-- `_format_string_data` (src/h5printer.py lines 56-61). -/
def HDF5Explorer._format_string_data (e : HDF5Explorer) (data : String) : String :=
  if data.length ≤ e.max_string_length then data
  else pyStrTake data e.max_string_length ++ truncSuffix

/-- `format_dataset_content` (src/h5printer.py lines 14-23): dispatch on the
runtime kind of the value. -/
def HDF5Explorer.format_dataset_content (e : HDF5Explorer) (data : Value) : String :=
  match data with
  | Value.arr shape dtype elems => e._format_numpy_array shape dtype elems
  | Value.bytes bs => e._format_bytes_data bs
  | Value.str s => e._format_string_data s
  | Value.other t => t

/-! ### The Tree Walker

An HDF5 node is either a group (attributes plus ordered named children) or
a dataset (attributes, shape, dtype name, and an on-demand payload that may
fail).  In h5py each node knows its own full path (`group.name`,
`item.name`); here the path is reconstructed during the walk from the
ancestry, exactly as h5py forms it. -/

inductive Item where
  | group (attrs : List (String × Value)) (items : List (String × Item))
  | dataset (attrs : List (String × Value)) (shape : List Nat)
      (dtype : String) (payload : Except String Value)

/-- The name of the root group in h5py. -/
def rootName : String := "/"

/-- The h5py full path of a child named `name` under a node whose full path
is `path` (the root group's path is `"/"`). -/
def childPath (path name : String) : String :=
  if path = rootName then rootName ++ name else path ++ rootName ++ name

/- Fixed text segments of the walker's f-strings. -/

def groupLabel : String := "Group: "

def subgroupLabel : String := "Subgroup: "

def datasetLabel : String := "Dataset: "

def connector : String := "  ├─ "

def attrSeg : String := "  ├─ Attribute: "

def eqSeg : String := " = "

def metaSeg : String := "  │    ├─ "

def dataSeg : String := "  │    └─ Data: "

def attrIndentSeg : String := "  │  "

def pathLabel : String := "Path: "

def shapeLabel : String := "Shape: "

def dtypeLabel : String := "Dtype: "

def sizeLabel : String := "Size: "

def elementsSuffix : String := " elements"

def tooLargeOpen : String := "<too large ("

def tooLargeClose : String := " elements), skipping display>"

def errOpen : String := "<error reading: "

def errClose : String := ">"

/-- `"  " * indent_level`. -/
def indentOf (indent_level : Nat) : String :=
  String.mk (List.replicate (2 * indent_level) ' ')

/-- `_display_attributes` (src/h5printer.py lines 101-109): one line per
attribute, in native order. -/
def HDF5Explorer._display_attributes (e : HDF5Explorer)
    (attrs : List (String × Value)) (indent : String) : List String :=
  attrs.map (fun a => indent ++ attrSeg ++ a.1 ++ eqSeg ++ e.format_dataset_content a.2)

/-- `_display_dataset_content` (src/h5printer.py lines 170-190): the
payload is consulted only in the `size <= max_display_items` branch; a
failed materialization (`Except.error`) is rendered as the error
placeholder line — the function is total, modelling the `try/except`. -/
def HDF5Explorer._display_dataset_content (e : HDF5Explorer) (size : Nat)
    (payload : Except String Value) (indent : String) : List String :=
  if size ≤ e.max_display_items then
    match payload with
    | Except.ok data => [indent ++ dataSeg ++ e.format_dataset_content data]
    | Except.error msg => [indent ++ dataSeg ++ errOpen ++ msg ++ errClose]
  else
    [indent ++ dataSeg ++ tooLargeOpen ++ Nat.repr size ++ tooLargeClose]

/-- `_process_dataset` (src/h5printer.py lines 139-168): label line,
metadata lines, attribute lines, then the content line. -/
def HDF5Explorer._process_dataset (e : HDF5Explorer) (dsPath name : String)
    (attrs : List (String × Value)) (shape : List Nat) (dtype : String)
    (payload : Except String Value) (sub_indent indent : String) : List String :=
  (sub_indent ++ datasetLabel ++ name)
    :: (indent ++ metaSeg ++ pathLabel ++ dsPath)
    :: (indent ++ metaSeg ++ shapeLabel ++ shapeRepr shape)
    :: (indent ++ metaSeg ++ dtypeLabel ++ dtype)
    :: (indent ++ metaSeg ++ sizeLabel ++ Nat.repr shape.prod ++ elementsSuffix)
    :: (e._display_attributes attrs (indent ++ attrIndentSeg)
        ++ e._display_dataset_content shape.prod payload indent)

mutual

/-- `traverse_hdf5_group` (src/h5printer.py lines 77-99), as the ordered
list of lines it emits: group header, group attributes, then each member
in native order. -/
def traverse_hdf5_group (e : HDF5Explorer) (path : String)
    (attrs : List (String × Value)) (items : List (String × Item))
    (indent_level : Nat) : List String :=
  (indentOf indent_level ++ groupLabel ++ path)
    :: (e._display_attributes attrs (indentOf indent_level)
        ++ _process_items e path items (indentOf indent_level) indent_level)
termination_by (sizeOf items, 1)

/-- The `for name, item in group.items()` loop body of
`traverse_hdf5_group` (src/h5printer.py lines 98-99). -/
def _process_items (e : HDF5Explorer) (path : String)
    (items : List (String × Item)) (indent : String) (indent_level : Nat) : List String :=
  match items with
  | [] => []
  | (name, it) :: rest =>
      _process_group_item e path name it indent indent_level
        ++ _process_items e path rest indent indent_level
termination_by (sizeOf items, 0)

/-- `_process_group_item` / `_process_subgroup` (src/h5printer.py lines
111-137): a subgroup gets a `Subgroup:` line and a recursive traversal at
`indent_level + 2`; a dataset is handled by `_process_dataset` and is
never recursed into. -/
def _process_group_item (e : HDF5Explorer) (path name : String) (it : Item)
    (indent : String) (indent_level : Nat) : List String :=
  match it with
  | Item.group attrs items =>
      (indent ++ connector ++ subgroupLabel ++ name)
        :: traverse_hdf5_group e (childPath path name) attrs items (indent_level + 2)
  | Item.dataset attrs shape dtype payload =>
      HDF5Explorer._process_dataset e (childPath path name) name attrs shape dtype
        payload (indent ++ connector) indent
termination_by (sizeOf it, 2)

end

/-! ### Output sinks and sessions

Every emitted line is an `Event`; `print(message)` is a console write and
`print(message, file=file_handle)` a file write.  `print_to_console_and_file`
(src/h5printer.py lines 63-75) writes the message to the console
unconditionally and, in the same call, to the file when a handle was
supplied. -/

inductive Event where
  | outLine (s : String)
  | fileLine (s : String)
  | fileOpen (path : String)
  | fileClose
deriving BEq, DecidableEq

/-- `print_to_console_and_file` (src/h5printer.py lines 63-75);
`file_handle` is the presence of the optional file handle. -/
def print_to_console_and_file (message : String) (file_handle : Bool) : List Event :=
  Event.outLine message :: (if file_handle then [Event.fileLine message] else [])

/-- The events produced by emitting each walker line in order through
`print_to_console_and_file`. -/
def emitEvents (msgs : List String) (file_handle : Bool) : List Event :=
  (msgs.map (fun m => print_to_console_and_file m file_handle)).flatten

/-- The lines written to the console stream, in order. -/
def consoleOf (t : List Event) : List String :=
  t.filterMap (fun ev => match ev with | Event.outLine s => some s | _ => none)

/-- The lines written to the output file, in order. -/
def sinkOf (t : List Event) : List String :=
  t.filterMap (fun ev => match ev with | Event.fileLine s => some s | _ => none)

/- Fixed session texts. -/

def sep60 : String := String.mk (List.replicate 60 '=')

def savedPre : String := "Results saved to: "

def consoleHeaderPre : String := "HDF5 File Structure: "

def footerMsg : String := "\nStructure exploration completed."

def notFoundPre : String := "Error: HDF5 file '"

def notFoundSuf : String := "' not found."

def cantReadPre : String := "Error: Cannot read HDF5 file '"

def cantReadMid : String := "': "

def emptyString : String := ""

/-- Result of `h5py.File(file_path, "r")`: the open root group, a
`FileNotFoundError`, or an `OSError` carrying a message. -/
inductive OpenResult where
  | ok (attrs : List (String × Value)) (items : List (String × Item))
  | notFound
  | osError (msg : String)

/-- `_explore_with_file` (src/h5printer.py lines 216-225): separator to
both sinks, the root traversal to both sinks, then the completion notice
by a bare `print` (console only) — still inside the `with` block, so
before the file is closed. -/
def _explore_with_file (e : HDF5Explorer) (attrs : List (String × Value))
    (items : List (String × Item)) (output_path : String) : List Event :=
  print_to_console_and_file sep60 true
    ++ emitEvents (traverse_hdf5_group e rootName attrs items 0) true
    ++ [Event.outLine (savedPre ++ output_path)]

/-- `_explore_console_only` (src/h5printer.py lines 227-237): header,
separator, traversal, footer, all console-only. -/
def _explore_console_only (e : HDF5Explorer) (file_path : String)
    (attrs : List (String × Value)) (items : List (String × Item)) : List Event :=
  print_to_console_and_file (consoleHeaderPre ++ file_path) false
    ++ print_to_console_and_file sep60 false
    ++ emitEvents (traverse_hdf5_group e rootName attrs items 0) false
    ++ print_to_console_and_file footerMsg false

/-- `explore_file_structure` (src/h5printer.py lines 192-214).  The
`with h5py.File(...) as h5file, open(output_path, "w") as out_file:` opens
the HDF5 file first (so on `FileNotFoundError` / `OSError` no output file
is ever created), the output file's creation and closing are the
`fileOpen` / `fileClose` events, and `if save_to_file and output_path:`
uses Python truthiness (`None` and `""` both select console-only mode).
The `except` clauses turn open failures into single printed lines; the
function is total — nothing escapes to the caller. -/
def explore_file_structure (e : HDF5Explorer) (res : OpenResult)
    (file_path : String) (output_path : Option String) (save_to_file : Bool) : List Event :=
  match res with
  | OpenResult.notFound =>
      [Event.outLine (notFoundPre ++ file_path ++ notFoundSuf)]
  | OpenResult.osError msg =>
      [Event.outLine (cantReadPre ++ file_path ++ cantReadMid ++ msg)]
  | OpenResult.ok attrs items =>
      match output_path with
      | some op =>
          if save_to_file && !(op == emptyString) then
            Event.fileOpen op
              :: (_explore_with_file e attrs items op ++ [Event.fileClose])
          else _explore_console_only e file_path attrs items
      | none => _explore_console_only e file_path attrs items

/-! ### Helper lemmas about emission -/

theorem emitEvents_nil (fh : Bool) : emitEvents [] fh = [] := rfl

theorem emitEvents_cons (m : String) (msgs : List String) (fh : Bool) :
    emitEvents (m :: msgs) fh = print_to_console_and_file m fh ++ emitEvents msgs fh := by
  simp [emitEvents]

theorem consoleOf_append (a b : List Event) :
    consoleOf (a ++ b) = consoleOf a ++ consoleOf b := by
  simp [consoleOf]

theorem sinkOf_append (a b : List Event) :
    sinkOf (a ++ b) = sinkOf a ++ sinkOf b := by
  simp [sinkOf]

theorem consoleOf_emitEvents (msgs : List String) (fh : Bool) :
    consoleOf (emitEvents msgs fh) = msgs := by
  induction msgs with
  | nil => rfl
  | cons m ms ih =>
      rw [emitEvents_cons, consoleOf_append, ih]
      cases fh <;> simp [print_to_console_and_file, consoleOf]

theorem sinkOf_emitEvents_true (msgs : List String) :
    sinkOf (emitEvents msgs true) = msgs := by
  induction msgs with
  | nil => rfl
  | cons m ms ih =>
      rw [emitEvents_cons, sinkOf_append, ih]
      simp [print_to_console_and_file, sinkOf]

theorem emitEvents_false_map (msgs : List String) :
    emitEvents msgs false = msgs.map (fun m => Event.outLine m) := by
  induction msgs with
  | nil => rfl
  | cons m ms ih => rw [emitEvents_cons, ih]; rfl

/-! ### Sample data used by witnesses and counterexamples -/

def boomStr : String := "boom"

def sampleShort : String := "abc"

def sampleLong : String := "abcdefgh"

def dtInt64 : String := "int64"

def fH5 : String := "f.h5"

def outTxt : String := "out.txt"

def hiBytes : List Nat := [104, 105]

def hijBytes : List Nat := [104, 105, 106]

def twoElems : List Int := [7, 8]

/-! ### Claim C4 — text string truncation -/

/-- Claim C4: for every text string, if its length is `<= max_string_length`
the formatter returns it verbatim (so output length equals input length);
otherwise the output is the first `max_string_length` characters followed by
exactly the suffix `"... [truncated]"`. -/
theorem c4_string_truncation (e : HDF5Explorer) (s : String) :
    (s.length ≤ e.max_string_length →
      e._format_string_data s = s ∧ (e._format_string_data s).length = s.length)
    ∧ (e.max_string_length < s.length →
      e._format_string_data s = pyStrTake s e.max_string_length ++ truncSuffix) := by
  constructor
  · intro h
    rw [HDF5Explorer._format_string_data, if_pos h]
    exact ⟨rfl, rfl⟩
  · intro h
    rw [HDF5Explorer._format_string_data, if_neg (by omega)]

/-- Witness for C4 at concrete inputs (`max_string_length = 5`). -/
theorem c4_string_truncation_witness :
    (sampleShort.length ≤ (5 : Nat)
      ∧ (HDF5Explorer._format_string_data ⟨10, 5⟩ sampleShort = sampleShort
         ∧ (HDF5Explorer._format_string_data ⟨10, 5⟩ sampleShort).length = sampleShort.length))
    ∧ ((5 : Nat) < sampleLong.length
      ∧ HDF5Explorer._format_string_data ⟨10, 5⟩ sampleLong
          = pyStrTake sampleLong 5 ++ truncSuffix) :=
  ⟨⟨by decide, (c4_string_truncation ⟨10, 5⟩ sampleShort).1 (by decide)⟩,
   ⟨by decide, (c4_string_truncation ⟨10, 5⟩ sampleLong).2 (by decide)⟩⟩

/-! ### Claim C5 — binary blob formatting and its strict boundary -/

/-- Claim C5: a binary blob strictly shorter than `max_string_length` is
rendered as its lossy UTF-8 decode (total by construction, and the
placeholder branch is not taken); a blob of length `>= max_string_length`
is rendered as exactly the placeholder naming its byte length.  The
boundary is strict-less-than, asymmetric with the `<=` rule for text
strings: at length exactly `max_string_length` a blob gets the
placeholder while a string is still returned verbatim. -/
theorem c5_bytes_boundary (e : HDF5Explorer) (data : List Nat) (s : String) :
    (data.length < e.max_string_length →
      e._format_bytes_data data = utf8DecodeReplace data)
    ∧ (e.max_string_length ≤ data.length →
      e._format_bytes_data data = segBytesOpen ++ Nat.repr data.length ++ segClose)
    ∧ (data.length = e.max_string_length →
      e._format_bytes_data data = segBytesOpen ++ Nat.repr data.length ++ segClose)
    ∧ (s.length = e.max_string_length → e._format_string_data s = s) := by
  refine ⟨?_, ?_, ?_, ?_⟩
  · intro h
    rw [HDF5Explorer._format_bytes_data, if_pos h]
  · intro h
    rw [HDF5Explorer._format_bytes_data, if_neg (by omega)]
  · intro h
    rw [HDF5Explorer._format_bytes_data, if_neg (by omega)]
  · intro h
    rw [HDF5Explorer._format_string_data, if_pos (by omega)]

/-- Witness for C5 at concrete inputs (`max_string_length = 3`): a 2-byte
blob is decoded, a 3-byte blob gets the placeholder, while a 3-character
string is still verbatim. -/
theorem c5_bytes_boundary_witness :
    (hiBytes.length < (3 : Nat)
      ∧ HDF5Explorer._format_bytes_data ⟨10, 3⟩ hiBytes = utf8DecodeReplace hiBytes)
    ∧ (hijBytes.length = (3 : Nat)
      ∧ HDF5Explorer._format_bytes_data ⟨10, 3⟩ hijBytes
          = segBytesOpen ++ Nat.repr hijBytes.length ++ segClose)
    ∧ (sampleShort.length = (3 : Nat)
      ∧ HDF5Explorer._format_string_data ⟨10, 3⟩ sampleShort = sampleShort) :=
  ⟨⟨by decide, (c5_bytes_boundary ⟨10, 3⟩ hiBytes sampleShort).1 (by decide)⟩,
   ⟨by decide, (c5_bytes_boundary ⟨10, 3⟩ hijBytes sampleShort).2.2.1 (by decide)⟩,
   ⟨by decide, (c5_bytes_boundary ⟨10, 3⟩ hijBytes sampleShort).2.2.2 (by decide)⟩⟩

/-! ### Claim C1 — guarded materialization and local error recovery -/

/-- Claim C1: the payload is consulted only when
`size <= max_display_items` (for larger sizes the emitted line is the
too-large placeholder and does not depend on the payload at all); a failed
materialization is rendered as the error-placeholder line carrying the
error message; in every case exactly one line is produced and the
traversal loop continues with the remaining items unaffected. -/
theorem c1_dataset_content_error_handling (e : HDF5Explorer) (size : Nat)
    (v : Value) (msg indent path name : String) (it : Item)
    (rest : List (String × Item)) (lvl : Nat) :
    (size ≤ e.max_display_items →
      e._display_dataset_content size (Except.ok v) indent
        = [indent ++ dataSeg ++ e.format_dataset_content v])
    ∧ (size ≤ e.max_display_items →
      e._display_dataset_content size (Except.error msg) indent
        = [indent ++ dataSeg ++ errOpen ++ msg ++ errClose])
    ∧ (e.max_display_items < size → ∀ p1 p2 : Except String Value,
      e._display_dataset_content size p1 indent
          = [indent ++ dataSeg ++ tooLargeOpen ++ Nat.repr size ++ tooLargeClose]
        ∧ e._display_dataset_content size p1 indent
          = e._display_dataset_content size p2 indent)
    ∧ _process_items e path ((name, it) :: rest) indent lvl
        = _process_group_item e path name it indent lvl
          ++ _process_items e path rest indent lvl := by
  refine ⟨?_, ?_, ?_, ?_⟩
  · intro h
    rw [HDF5Explorer._display_dataset_content, if_pos h]
  · intro h
    rw [HDF5Explorer._display_dataset_content, if_pos h]
  · intro h p1 p2
    constructor
    · rw [HDF5Explorer._display_dataset_content.eq_def, if_neg (by omega)]
    · rw [HDF5Explorer._display_dataset_content.eq_def, if_neg (by omega)]
      rw [HDF5Explorer._display_dataset_content.eq_def, if_neg (by omega)]
  · rw [_process_items]

/-- Witness for C1 at concrete inputs: a size-5 dataset whose
materialization fails with message `"boom"` yields exactly the error line,
and a size-500 dataset yields the too-large line for any payload. -/
theorem c1_dataset_content_error_handling_witness :
    ((5 : Nat) ≤ 10
      ∧ HDF5Explorer._display_dataset_content ⟨10, 100⟩ 5 (Except.error boomStr) emptyString
          = [emptyString ++ dataSeg ++ errOpen ++ boomStr ++ errClose])
    ∧ ((10 : Nat) < 500
      ∧ HDF5Explorer._display_dataset_content ⟨10, 100⟩ 500 (Except.error boomStr) emptyString
          = [emptyString ++ dataSeg ++ tooLargeOpen ++ Nat.repr 500 ++ tooLargeClose]
        ∧ HDF5Explorer._display_dataset_content ⟨10, 100⟩ 500 (Except.error boomStr) emptyString
          = HDF5Explorer._display_dataset_content ⟨10, 100⟩ 500
              (Except.ok (Value.str boomStr)) emptyString) :=
  ⟨⟨by decide,
    (c1_dataset_content_error_handling ⟨10, 100⟩ 5 (Value.str boomStr) boomStr emptyString
      rootName rootName (Item.group [] []) [] 0).2.1 (by decide)⟩,
   ⟨by decide,
    (c1_dataset_content_error_handling ⟨10, 100⟩ 500 (Value.str boomStr) boomStr emptyString
      rootName rootName (Item.group [] []) [] 0).2.2.1 (by decide)
      (Except.error boomStr) (Except.ok (Value.str boomStr))⟩⟩

/-! ### Claim C6 — dual-sink emission -/

/-- Claim C6: `print_to_console_and_file` writes every message to the
console unconditionally and, in the same emission, writes the identical
text to the sink when one is supplied; consequently, for any sequence of
emitted lines (in particular an entire traversal body) the sink receives
exactly the console's content. -/
theorem c6_dual_sink_equivalence (m : String) (msgs : List String)
    (e : HDF5Explorer) (path : String) (attrs : List (String × Value))
    (items : List (String × Item)) (lvl : Nat) :
    (∀ fh : Bool, consoleOf (print_to_console_and_file m fh) = [m])
    ∧ sinkOf (print_to_console_and_file m true) = [m]
    ∧ consoleOf (emitEvents msgs true) = msgs
    ∧ sinkOf (emitEvents msgs true) = msgs
    ∧ sinkOf (emitEvents (traverse_hdf5_group e path attrs items lvl) true)
        = consoleOf (emitEvents (traverse_hdf5_group e path attrs items lvl) true) := by
  refine ⟨?_, ?_, consoleOf_emitEvents msgs true, sinkOf_emitEvents_true msgs, ?_⟩
  · intro fh
    cases fh <;> simp [print_to_console_and_file, consoleOf]
  · simp [print_to_console_and_file, sinkOf]
  · rw [sinkOf_emitEvents_true, consoleOf_emitEvents]

/-! ### Claim C7 — open failures are reported, never propagated -/

/-- Claim C7: when the source path does not resolve to an existing file,
`explore_file_structure` emits exactly the one-line not-found message and
opens no output file, regardless of `save_to_file` and `output_path`; an
unreadable-file error likewise becomes a single printed message naming the
cause.  The session function is total — in this embedding exceptions are
values, so nothing propagates to the caller. -/
theorem c7_file_not_found (e : HDF5Explorer) (fp msg : String)
    (outp : Option String) (save : Bool) :
    explore_file_structure e OpenResult.notFound fp outp save
        = [Event.outLine (notFoundPre ++ fp ++ notFoundSuf)]
    ∧ explore_file_structure e (OpenResult.osError msg) fp outp save
        = [Event.outLine (cantReadPre ++ fp ++ cantReadMid ++ msg)]
    ∧ (∀ p, Event.fileOpen p ∉ explore_file_structure e OpenResult.notFound fp outp save)
    ∧ (∀ p, Event.fileOpen p ∉ explore_file_structure e (OpenResult.osError msg) fp outp save) := by
  refine ⟨rfl, rfl, ?_, ?_⟩ <;> intro p <;> simp [explore_file_structure]

/-! ### Claim C8 — recursion shape and termination -/

/-- Claim C8: the walker is a total (hence terminating) recursion in which
a subgroup child is recursed into at exactly `indent_level + 2`, a dataset
child expands to a fixed list of lines with no recursive call (datasets
are leaves), and a group with no children bottoms out at its header plus
attribute lines.  The final conjunct is the defining unfolding of
`traverse_hdf5_group`. -/
theorem c8_recursion_structure (e : HDF5Explorer) (path name : String)
    (attrs dattrs : List (String × Value)) (items : List (String × Item))
    (shape : List Nat) (dtype : String) (payload : Except String Value)
    (indent : String) (lvl : Nat) :
    _process_group_item e path name (Item.group attrs items) indent lvl
        = (indent ++ connector ++ subgroupLabel ++ name)
          :: traverse_hdf5_group e (childPath path name) attrs items (lvl + 2)
    ∧ _process_group_item e path name (Item.dataset dattrs shape dtype payload) indent lvl
        = (indent ++ connector ++ datasetLabel ++ name)
          :: (indent ++ metaSeg ++ pathLabel ++ childPath path name)
          :: (indent ++ metaSeg ++ shapeLabel ++ shapeRepr shape)
          :: (indent ++ metaSeg ++ dtypeLabel ++ dtype)
          :: (indent ++ metaSeg ++ sizeLabel ++ Nat.repr shape.prod ++ elementsSuffix)
          :: (e._display_attributes dattrs (indent ++ attrIndentSeg)
              ++ e._display_dataset_content shape.prod payload indent)
    ∧ traverse_hdf5_group e path attrs [] lvl
        = (indentOf lvl ++ groupLabel ++ path)
          :: e._display_attributes attrs (indentOf lvl)
    ∧ traverse_hdf5_group e path attrs items lvl
        = (indentOf lvl ++ groupLabel ++ path)
          :: (e._display_attributes attrs (indentOf lvl)
              ++ _process_items e path items (indentOf lvl) lvl) := by
  refine ⟨?_, ?_, ?_, ?_⟩
  · rw [_process_group_item]
  · rw [_process_group_item, HDF5Explorer._process_dataset]
  · rw [traverse_hdf5_group, _process_items]
    simp
  · rw [traverse_hdf5_group]

/-! ### Claim C10 — empty/missing output path falls back to console mode -/

/-- Claim C10: with `save_to_file = true` but `output_path` equal to
`None` or the empty string (both falsy in Python), the session silently
runs in console-only mode: header, separator, traversal body and footer
all go to the console, and no file events occur at all. -/
theorem c10_falsy_output_path (e : HDF5Explorer) (fp : String)
    (attrs : List (String × Value)) (items : List (String × Item)) :
    explore_file_structure e (OpenResult.ok attrs items) fp none true
        = _explore_console_only e fp attrs items
    ∧ explore_file_structure e (OpenResult.ok attrs items) fp (some emptyString) true
        = _explore_console_only e fp attrs items
    ∧ _explore_console_only e fp attrs items
        = Event.outLine (consoleHeaderPre ++ fp)
          :: Event.outLine sep60
          :: ((traverse_hdf5_group e rootName attrs items 0).map (fun s => Event.outLine s)
              ++ [Event.outLine footerMsg])
    ∧ (∀ p, Event.fileOpen p ∉ _explore_console_only e fp attrs items)
    ∧ Event.fileClose ∉ _explore_console_only e fp attrs items
    ∧ (∀ s, Event.fileLine s ∉ _explore_console_only e fp attrs items) := by
  have hconsole : _explore_console_only e fp attrs items
      = Event.outLine (consoleHeaderPre ++ fp)
        :: Event.outLine sep60
        :: ((traverse_hdf5_group e rootName attrs items 0).map (fun s => Event.outLine s)
            ++ [Event.outLine footerMsg]) := by
    rw [_explore_console_only, emitEvents_false_map]
    simp [print_to_console_and_file]
  refine ⟨rfl, ?_, hconsole, ?_, ?_, ?_⟩
  · simp [explore_file_structure]
  · intro p
    rw [hconsole]
    simp
  · rw [hconsole]
    simp
  · intro s
    rw [hconsole]
    simp

/-! ### Claim C2 — head/tail elision for oversized 1-D arrays -/

def fourElems : List Int := [1, 2, 3, 4]

/-- Claim C2 (amended): for a 1-D numeric array with
`size > max_display_items` AND `max_display_items >= 2`, the output is the
elided rendering with exactly `floor(max_display_items/2)` head elements
and exactly `floor(max_display_items/2)` tail elements around the literal
`" ... "`, including the array's shape.  (For `max_display_items < 2` the
tail slice `array[-0:]` is the whole array; see the counterexample.) -/
theorem c2_head_tail_elision (e : HDF5Explorer) (shape : List Nat)
    (dtype : String) (elems : List Int)
    (h1 : shape.length = 1) (hlen : elems.length = shape.prod)
    (hgt : e.max_display_items < shape.prod) (hm : 2 ≤ e.max_display_items) :
    e._format_numpy_array shape dtype elems
        = segOpen ++ commaJoin (elems.take (e.max_display_items / 2)) ++ segElide
          ++ commaJoin (lastN (e.max_display_items / 2) elems) ++ segShapeMid
          ++ shapeRepr shape ++ segFirstLast ++ Nat.repr e.max_display_items ++ segItems
    ∧ (elems.take (e.max_display_items / 2)).length = e.max_display_items / 2
    ∧ (lastN (e.max_display_items / 2) elems).length = e.max_display_items / 2
    ∧ 1 ≤ e.max_display_items / 2 := by
  have hk : 1 ≤ e.max_display_items / 2 := by omega
  refine ⟨?_, ?_, ?_, hk⟩
  · rw [HDF5Explorer._format_numpy_array, if_neg (by omega), if_neg (by omega), if_pos h1]
    simp only [pyTailSlice, lastN]
    rw [if_neg (by omega)]
  · rw [List.length_take, Nat.min_eq_left (by omega)]
  · simp only [lastN, List.length_drop]
    omega

/-- Counterexample to claim C2 as stated: at `max_display_items = 1` the
claimed tail count is `floor(1/2) = 0`, but the code's tail slice
`array[-0:]` is the WHOLE array, so for the 1-D array `[7, 8]` the output
shows both elements in the tail position. -/
theorem c2_counterexample :
    (1 : Nat) < ([2] : List Nat).prod
    ∧ (1 : Nat) / 2 = 0
    ∧ (pyTailSlice twoElems ((1 : Nat) / 2)).length = 2
    ∧ ¬ (pyTailSlice twoElems ((1 : Nat) / 2)).length = (1 : Nat) / 2
    ∧ HDF5Explorer._format_numpy_array ⟨1, 100⟩ [2] dtInt64 twoElems
        = "[ ... 7, 8] (shape=(2,), first/last 1 items)" :=
  ⟨by decide, by decide, by decide, by decide, by decide⟩

/-- Witness for the amended C2 at a concrete input
(`max_display_items = 3`, array `[1, 2, 3, 4]`). -/
theorem c2_head_tail_elision_witness :
    (([4] : List Nat).length = 1
      ∧ fourElems.length = ([4] : List Nat).prod
      ∧ (3 : Nat) < ([4] : List Nat).prod
      ∧ (2 : Nat) ≤ 3)
    ∧ (HDF5Explorer._format_numpy_array ⟨3, 100⟩ [4] dtInt64 fourElems
        = segOpen ++ commaJoin (fourElems.take (3 / 2)) ++ segElide
          ++ commaJoin (lastN (3 / 2) fourElems) ++ segShapeMid
          ++ shapeRepr [4] ++ segFirstLast ++ Nat.repr 3 ++ segItems
      ∧ (fourElems.take (3 / 2)).length = 3 / 2
      ∧ (lastN (3 / 2) fourElems).length = 3 / 2
      ∧ 1 ≤ 3 / 2) :=
  ⟨⟨by decide, by decide, by decide, by decide⟩,
   c2_head_tail_elision ⟨3, 100⟩ [4] dtInt64 fourElems
     (by decide) (by decide) (by decide) (by decide)⟩

/-! ### Claim C9 — event order of the file-saving session -/

/-- Claim C9 (amended): in file-saving mode the session emits the 60-`=`
separator (to console and sink), then the root traversal (each line to
console and sink), then prints the completion notice naming the output
path to the console — and only THEN is the sink closed: the notice is
emitted while the sink is still open, because in the source the notice is
printed inside the `with` block. -/
theorem c9_file_session_order (e : HDF5Explorer) (attrs : List (String × Value))
    (items : List (String × Item)) (fp op : String) (h : ¬ op = emptyString) :
    explore_file_structure e (OpenResult.ok attrs items) fp (some op) true
        = Event.fileOpen op
          :: (print_to_console_and_file sep60 true
              ++ emitEvents (traverse_hdf5_group e rootName attrs items 0) true
              ++ [Event.outLine (savedPre ++ op), Event.fileClose])
    ∧ sep60.data = List.replicate 60 '=' := by
  constructor
  · rw [explore_file_structure]
    rw [if_pos (by simp [h])]
    rw [_explore_with_file]
    simp [List.append_assoc]
  · rfl

/-- Witness for the amended C9 at a concrete session (empty root group,
output path `"out.txt"`). -/
theorem c9_file_session_order_witness :
    (¬ outTxt = emptyString)
    ∧ (explore_file_structure ⟨10, 100⟩ (OpenResult.ok [] []) fH5 (some outTxt) true
        = Event.fileOpen outTxt
          :: (print_to_console_and_file sep60 true
              ++ emitEvents (traverse_hdf5_group ⟨10, 100⟩ rootName [] [] 0) true
              ++ [Event.outLine (savedPre ++ outTxt), Event.fileClose])
      ∧ sep60.data = List.replicate 60 '=') :=
  ⟨by decide, c9_file_session_order ⟨10, 100⟩ [] [] fH5 outTxt (by decide)⟩

/-- The concrete file-saving session trace used to refute C9 as stated. -/
def c9Trace : List Event :=
  explore_file_structure ⟨10, 100⟩ (OpenResult.ok [] []) fH5 (some outTxt) true

/-- Counterexample to claim C9 as stated: in the concrete session trace
the completion notice (`"Results saved to: out.txt"`, a console line)
occurs at an earlier position than the closing of the sink — the notice is
NOT printed after the sink is closed. -/
theorem c9_counterexample :
    Event.fileClose ∈ c9Trace
    ∧ Event.outLine (savedPre ++ outTxt) ∈ c9Trace
    ∧ List.findIdx (fun ev => ev == Event.outLine (savedPre ++ outTxt)) c9Trace
        < List.findIdx (fun ev => ev == Event.fileClose) c9Trace := by
  have htr : traverse_hdf5_group ⟨10, 100⟩ rootName [] [] 0
      = [indentOf 0 ++ groupLabel ++ rootName] := by
    rw [traverse_hdf5_group, _process_items]
    simp [HDF5Explorer._display_attributes]
  have ht : c9Trace
      = [Event.fileOpen outTxt, Event.outLine sep60, Event.fileLine sep60,
         Event.outLine (indentOf 0 ++ groupLabel ++ rootName),
         Event.fileLine (indentOf 0 ++ groupLabel ++ rootName),
         Event.outLine (savedPre ++ outTxt), Event.fileClose] := by
    rw [c9Trace, explore_file_structure]
    rw [if_pos (by decide)]
    rw [_explore_with_file, htr]
    simp [emitEvents, print_to_console_and_file]
  rw [ht]
  exact ⟨by simp, by simp, by decide⟩

/-! ### Ordered containment of parts in a rendered character list -/

/-- `InfixChain ps l` - the parts `ps` occur in `l` in order, as disjoint
contiguous infixes: the formal reading of "the output contains the textual
form of every element, in storage order". -/
def InfixChain : List (List Char) → List Char → Prop
  | [], _ => True
  | p :: ps, l => ∃ l1 l2, l = l1 ++ (p ++ l2) ∧ InfixChain ps l2

theorem infixChain_nil (l : List Char) : InfixChain [] l := trivial

theorem infixChain_append_left {ps : List (List Char)} {l : List Char}
    (t : List Char) (h : InfixChain ps l) : InfixChain ps (t ++ l) := by
  cases ps with
  | nil => trivial
  | cons p ps =>
      obtain ⟨l1, l2, he, hc⟩ := h
      exact ⟨t ++ l1, l2, by rw [he, List.append_assoc], hc⟩

theorem infixChain_append_right {ps : List (List Char)} {l : List Char}
    (t : List Char) (h : InfixChain ps l) : InfixChain ps (l ++ t) := by
  induction ps generalizing l with
  | nil => trivial
  | cons p ps ih =>
      obtain ⟨l1, l2, he, hc⟩ := h
      refine ⟨l1, l2 ++ t, ?_, ih hc⟩
      rw [he]
      simp [List.append_assoc]

theorem infixChain_append {ps qs : List (List Char)} {l m : List Char}
    (h1 : InfixChain ps l) (h2 : InfixChain qs m) :
    InfixChain (ps ++ qs) (l ++ m) := by
  induction ps generalizing l with
  | nil => simpa using infixChain_append_left l h2
  | cons p ps ih =>
      obtain ⟨l1, l2, he, hc⟩ := h1
      refine ⟨l1, l2 ++ m, ?_, ih hc⟩
      rw [he]
      simp [List.append_assoc]

theorem infixChain_single (p pre suf : List Char) :
    InfixChain [p] (pre ++ (p ++ suf)) :=
  ⟨pre, suf, rfl, trivial⟩

theorem infixChain_joinSep (sep : List Char) {pss : List (List (List Char))}
    {qs : List (List Char)}
    (h : List.Forall₂ (fun ps q => InfixChain ps q) pss qs) :
    InfixChain pss.flatten (joinSep sep qs) := by
  induction h with
  | nil => exact trivial
  | @cons ps q pss qs hpq htail ih =>
      cases htail with
      | nil =>
          simp only [joinSep, List.flatten_cons, List.flatten_nil, List.append_nil]
          exact hpq
      | cons hpq2 htail2 =>
          rw [joinSep]
          simp only [List.flatten_cons]
          exact infixChain_append (infixChain_append_right sep hpq) ih

theorem forall2_of_map {α β γ : Type} (R : β → γ → Prop) (f : α → β) (g : α → γ)
    (l : List α) (h : ∀ a ∈ l, R (f a) (g a)) :
    List.Forall₂ R (l.map f) (l.map g) := by
  induction l with
  | nil => exact List.Forall₂.nil
  | cons a l ih =>
      exact List.Forall₂.cons (h a (by simp)) (ih fun x hx => h x (by simp [hx]))

theorem flatten_map_singleton {α β : Type} (f : α → β) (l : List α) :
    (l.map (fun a => [f a])).flatten = l.map f := by
  induction l with
  | nil => rfl
  | cons a l ih => simp [ih]

theorem mem_joinSep {α : Type} {a : α} (sep : List α) :
    ∀ qs : List (List α), a ∈ joinSep sep qs → a ∈ sep ∨ ∃ q ∈ qs, a ∈ q := by
  intro qs
  induction qs with
  | nil =>
      intro h
      simp [joinSep] at h
  | cons x xs ih =>
      cases xs with
      | nil =>
          intro h
          exact Or.inr ⟨x, by simp, h⟩
      | cons y ys =>
          intro h
          rw [joinSep] at h
          rcases List.mem_append.mp h with h1 | h2
          · rcases List.mem_append.mp h1 with h3 | h4
            · exact Or.inr ⟨x, by simp, h3⟩
            · exact Or.inl h4
          · rcases ih h2 with h5 | ⟨q, hq, ha⟩
            · exact Or.inl h5
            · exact Or.inr ⟨q, by simp [hq], ha⟩

/-! ### Lemmas about `chunksN` -/

theorem chunksN_flatten (n : Nat) :
    ∀ (csize : Nat) (xs : List Int), xs.length = n * csize →
      (chunksN n csize xs).flatten = xs := by
  induction n with
  | zero =>
      intro csize xs h
      have hx : xs = [] := List.eq_nil_of_length_eq_zero (by omega)
      subst hx
      rfl
  | succ m ih =>
      intro csize xs h
      have hmc : (m + 1) * csize = m * csize + csize := by ring
      rw [chunksN]
      simp only [List.flatten_cons]
      rw [ih csize (xs.drop csize) (by rw [List.length_drop]; omega)]
      exact List.take_append_drop csize xs

theorem chunksN_length_mem (n : Nat) :
    ∀ (csize : Nat) (xs : List Int), xs.length = n * csize →
      ∀ c ∈ chunksN n csize xs, c.length = csize := by
  induction n with
  | zero =>
      intro csize xs h c hc
      simp [chunksN] at hc
  | succ m ih =>
      intro csize xs h c hc
      have hmc : (m + 1) * csize = m * csize + csize := by ring
      rw [chunksN] at hc
      rcases List.mem_cons.mp hc with h1 | h2
      · subst h1
        rw [List.length_take]
        omega
      · exact ih csize (xs.drop csize) (by rw [List.length_drop]; omega) c h2

/-! ### The characters of a decimal integer rendering -/

theorem digitChar_ne_dot : ∀ m : Nat, m < 10 → Nat.digitChar m ≠ '.' := by decide

theorem toDigitsCore_ne_dot (fuel : Nat) :
    ∀ (n : Nat) (ds : List Char), (∀ c ∈ ds, c ≠ '.') →
      ∀ c ∈ Nat.toDigitsCore 10 fuel n ds, c ≠ '.' := by
  induction fuel with
  | zero =>
      intro n ds hds c hc
      rw [Nat.toDigitsCore] at hc
      exact hds c hc
  | succ f ih =>
      intro n ds hds c hc
      rw [Nat.toDigitsCore] at hc
      split at hc
      · rcases List.mem_cons.mp hc with h1 | h2
        · subst h1
          exact digitChar_ne_dot (n % 10) (Nat.mod_lt n (by omega))
        · exact hds c h2
      · refine ih (n / 10) (Nat.digitChar (n % 10) :: ds) ?_ c hc
        intro x hx
        rcases List.mem_cons.mp hx with h1 | h2
        · subst h1
          exact digitChar_ne_dot (n % 10) (Nat.mod_lt n (by omega))
        · exact hds x h2

theorem natRepr_ne_dot (n : Nat) : ∀ c ∈ (Nat.repr n).data, c ≠ '.' := by
  intro c hc
  have hd : (Nat.repr n).data = Nat.toDigitsCore 10 (n + 1) n [] := rfl
  rw [hd] at hc
  exact toDigitsCore_ne_dot (n + 1) n [] (by simp) c hc

theorem elemChars_ne_dot (z : Int) : ∀ c ∈ elemChars z, c ≠ '.' := by
  intro c hc
  cases z with
  | ofNat n =>
      have hd : elemChars (Int.ofNat n) = (Nat.repr n).data := rfl
      rw [hd] at hc
      exact natRepr_ne_dot n c hc
  | negSucc n =>
      have hd : elemChars (Int.negSucc n) = '-' :: (Nat.repr (n + 1)).data := rfl
      rw [hd] at hc
      rcases List.mem_cons.mp hc with h1 | h2
      · subst h1
        decide
      · exact natRepr_ne_dot (n + 1) c h2

theorem hasInfix_eq_false {l : List Char} (h : ∀ c ∈ l, c ≠ '.') :
    hasInfix dots3 l = false := by
  by_contra hb
  rw [Bool.not_eq_false, hasInfix, List.any_eq_true] at hb
  obtain ⟨t, ht, hp⟩ := hb
  rw [List.mem_tails] at ht
  rw [List.isPrefixOf_iff_prefix] at hp
  have hdot : ('.' : Char) ∈ t := hp.subset (by decide)
  exact h '.' (ht.subset hdot) rfl

/-! ### The unsummarized renderer: evaluation lemmas -/

theorem npChars_nil_eq (d w : Nat) (summ : Bool) (es : List Int) :
    npChars d w summ [] es = padChars w (elemChars (es.headD 0)) := by
  rw [npChars]

theorem npChars_one_eq (d w n : Nat) (es : List Int) :
    npChars d w false [n] es
      = '[' :: joinSep [' '] (es.map (fun z => padChars w (elemChars z))) ++ [']'] := by
  rw [npChars]
  simp

theorem npChars_cons_eq (d w n m : Nat) (rest : List Nat) (es : List Int) :
    npChars d w false (n :: m :: rest) es
      = '[' :: joinSep (List.replicate (m :: rest).length '\n' ++ List.replicate (d + 1) ' ')
          ((chunksN n ((m :: rest).prod) es).map
            (fun c => npChars (d + 1) w false (m :: rest) c)) ++ [']'] := by
  rw [npChars]
  simp

/-- With summarization off, the rendering never contains a full stop: its
characters are digits, minus signs, spaces, newlines and brackets. -/
theorem npChars_no_dot (w : Nat) :
    ∀ (shape : List Nat) (d : Nat) (es : List Int) (c : Char),
      c ∈ npChars d w false shape es → c ≠ '.' := by
  intro shape
  induction shape with
  | nil =>
      intro d es c hc
      rw [npChars_nil_eq, padChars] at hc
      rcases List.mem_append.mp hc with h | h
      · rw [List.eq_of_mem_replicate h]
        decide
      · exact elemChars_ne_dot _ c h
  | cons n tail ih =>
      intro d es c hc
      cases tail with
      | nil =>
          rw [npChars_one_eq] at hc
          rcases List.mem_append.mp hc with h | h
          · rcases List.mem_cons.mp h with h1 | h2
            · subst h1
              decide
            rcases mem_joinSep [' '] _ h2 with hs | ⟨q, hq, ha⟩
            · simp at hs
              subst hs
              decide
            · obtain ⟨z, hz, hqz⟩ := List.mem_map.mp hq
              subst hqz
              rw [padChars] at ha
              rcases List.mem_append.mp ha with ha1 | ha2
              · rw [List.eq_of_mem_replicate ha1]
                decide
              · exact elemChars_ne_dot z c ha2
          · simp at h
            subst h
            decide
      | cons m rest =>
          rw [npChars_cons_eq] at hc
          rcases List.mem_append.mp hc with h | h
          · rcases List.mem_cons.mp h with h1 | h2
            · subst h1
              decide
            rcases mem_joinSep _ _ h2 with hs | ⟨q, hq, ha⟩
            · rcases List.mem_append.mp hs with hs1 | hs2
              · rw [List.eq_of_mem_replicate hs1]
                decide
              · rw [List.eq_of_mem_replicate hs2]
                decide
            · obtain ⟨ch, hch, hqc⟩ := List.mem_map.mp hq
              subst hqc
              exact ih (d + 1) ch c ha
          · simp at h
            subst h
            decide

/-- With summarization off, every element's decimal text occurs in the
rendering, in storage order, as disjoint contiguous infixes. -/
theorem npChars_chain (w : Nat) :
    ∀ (shape : List Nat) (d : Nat) (es : List Int),
      es.length = shape.prod → 0 < shape.prod →
      InfixChain (es.map (fun z => elemChars z)) (npChars d w false shape es) := by
  intro shape
  induction shape with
  | nil =>
      intro d es hlen hpos
      have h1 : es.length = 1 := by simpa using hlen
      obtain ⟨z, hz⟩ : ∃ z, es = [z] := by
        cases es with
        | nil => simp at h1
        | cons a t =>
            cases t with
            | nil => exact ⟨a, rfl⟩
            | cons b t2 => simp at h1
      subst hz
      rw [npChars_nil_eq, padChars]
      simpa using infixChain_single (elemChars z)
        (List.replicate (w - (elemChars z).length) ' ') []
  | cons n tail ih =>
      intro d es hlen hpos
      cases tail with
      | nil =>
          rw [npChars_one_eq]
          have hchain : InfixChain (es.map (fun z => elemChars z))
              (joinSep [' '] (es.map (fun z => padChars w (elemChars z)))) := by
            have h2 := infixChain_joinSep [' ']
              (forall2_of_map InfixChain (fun z => [elemChars z])
                (fun z => padChars w (elemChars z)) es
                (fun z _ => by
                  simp only [padChars]
                  simpa using infixChain_single (elemChars z)
                    (List.replicate (w - (elemChars z).length) ' ') []))
            rwa [flatten_map_singleton] at h2
          have h3 := infixChain_append_right [']'] (infixChain_append_left ['['] hchain)
          simpa using h3
      | cons m rest =>
          rw [npChars_cons_eq]
          have hp : 0 < (m :: rest).prod := by
            rcases Nat.eq_zero_or_pos ((m :: rest).prod) with h0 | h0
            · rw [List.prod_cons, h0, Nat.mul_zero] at hpos
              omega
            · exact h0
          have hlen2 : es.length = n * (m :: rest).prod := by
            rw [hlen, List.prod_cons]
          have hchain : InfixChain
              (((chunksN n ((m :: rest).prod) es).map
                (fun c => c.map (fun z => elemChars z))).flatten)
              (joinSep (List.replicate (m :: rest).length '\n' ++ List.replicate (d + 1) ' ')
                ((chunksN n ((m :: rest).prod) es).map
                  (fun c => npChars (d + 1) w false (m :: rest) c))) :=
            infixChain_joinSep _
              (forall2_of_map InfixChain
                (fun c => c.map (fun z => elemChars z))
                (fun c => npChars (d + 1) w false (m :: rest) c)
                (chunksN n ((m :: rest).prod) es)
                (fun c hc => ih (d + 1) c
                  (chunksN_length_mem n ((m :: rest).prod) es hlen2 c hc) hp))
          rw [← List.map_flatten, chunksN_flatten n ((m :: rest).prod) es hlen2] at hchain
          have h3 := infixChain_append_right [']'] (infixChain_append_left ['['] hchain)
          simpa using h3

/-! ### Claim C3 — small arrays are printed in full -/

def threeElems : List Int := [1, 2, 3]

def bigZeros : List Int := List.replicate 1001 0

/-- Claim C3 (amended): for every numeric array with
`0 < size <= max_display_items` AND `size <= 1000` (numpy's default print
threshold), the formatted output contains the decimal text of every
element, in storage order, and contains no elision marker `"..."`.  (For
`size > 1000` numpy's own `str` summarizes even though the size passed the
`max_display_items` check; see the counterexample.) -/
theorem c3_small_array_full_print (e : HDF5Explorer) (shape : List Nat)
    (dtype : String) (elems : List Int)
    (hlen : elems.length = shape.prod) (hpos : 0 < shape.prod)
    (hm : shape.prod ≤ e.max_display_items) (hth : shape.prod ≤ 1000) :
    InfixChain (elems.map (fun z => elemChars z))
        (e._format_numpy_array shape dtype elems).data
    ∧ hasInfix dots3 (e._format_numpy_array shape dtype elems).data = false := by
  have hfmt : e._format_numpy_array shape dtype elems = numpyStr shape elems := by
    rw [HDF5Explorer._format_numpy_array, if_neg (by omega), if_pos hm]
  have hsumm : decide (1000 < shape.prod) = false := by
    simp only [decide_eq_false_iff_not]
    omega
  have hnp : (numpyStr shape elems).data
      = npChars 0 (maxWidth (shownElems false shape elems)) false shape elems := by
    simp only [numpyStr, hsumm]
  rw [hfmt, hnp]
  exact ⟨npChars_chain _ shape 0 elems hlen hpos,
    hasInfix_eq_false (fun c hc => npChars_no_dot _ shape 0 elems c hc)⟩

set_option maxRecDepth 40000 in
/-- Counterexample to claim C3 as stated: with `max_display_items = 1001`,
the 1-D array of 1001 zeros has `0 < size <= max_display_items`, so the
code returns `str(array)` — but numpy's default print threshold (1000)
kicks in and the output `"[0 0 0 ... 0 0 0]"` contains the elision
marker `"..."`. -/
theorem c3_counterexample :
    0 < ([1001] : List Nat).prod
    ∧ bigZeros.length = ([1001] : List Nat).prod
    ∧ ([1001] : List Nat).prod ≤ (1001 : Nat)
    ∧ HDF5Explorer._format_numpy_array ⟨1001, 100⟩ [1001] dtInt64 bigZeros
        = "[0 0 0 ... 0 0 0]"
    ∧ hasInfix dots3
        (HDF5Explorer._format_numpy_array ⟨1001, 100⟩ [1001] dtInt64 bigZeros).data
        = true :=
  ⟨by decide, by decide, by decide, by decide, by decide⟩

/-- Witness for the amended C3 at a concrete input (`[1, 2, 3]`, shape
`(3,)`, `max_display_items = 10`). -/
theorem c3_small_array_full_print_witness :
    (threeElems.length = ([3] : List Nat).prod
      ∧ 0 < ([3] : List Nat).prod
      ∧ ([3] : List Nat).prod ≤ (10 : Nat)
      ∧ ([3] : List Nat).prod ≤ (1000 : Nat))
    ∧ (InfixChain (threeElems.map (fun z => elemChars z))
        (HDF5Explorer._format_numpy_array ⟨10, 100⟩ [3] dtInt64 threeElems).data
      ∧ hasInfix dots3
          (HDF5Explorer._format_numpy_array ⟨10, 100⟩ [3] dtInt64 threeElems).data
          = false) :=
  ⟨⟨by decide, by decide, by decide, by decide⟩,
   c3_small_array_full_print ⟨10, 100⟩ [3] dtInt64 threeElems
     (by decide) (by decide) (by decide) (by decide)⟩
